import Mathlib

/- Verification of verification/split_yul_code.py.

   Python strings are modelled as lists of characters (`List Char`) with
   integer offsets.  The -1 sentinels of Python are kept as `Int` results.  The
   file layout: first the embedded definitions, translated function by
   function from the Python source, then specification-side definitions,
   then the lemmas and the claim theorems. -/

namespace SplitYul

/-- braceDelta c is the contribution of character c to the running brace
depth: +1 for an opening brace, -1 for a closing brace, 0 otherwise. -/
def braceDelta (c : Char) : Int :=
  if c = '\x7b' then 1 else if c = '\x7d' then -1 else 0

/-- depthRun l is the total brace-depth change over the characters of l
(number of opening braces minus number of closing braces). -/
def depthRun (l : List Char) : Int :=
  (l.map braceDelta).sum

/-- isMatchAt l d k states that, scanning l with initial depth d, position k
holds a closing brace at which the running depth counter returns to exactly
0 — the return condition of the loop in find_matching_brace. -/
def isMatchAt (l : List Char) (d : Int) (k : Nat) : Prop :=
  l.get? k = some '\x7d' ∧ d + depthRun (l.take (k + 1)) = 0

instance (l : List Char) (d : Int) (k : Nat) : Decidable (isMatchAt l d k) := by
  unfold isMatchAt
  infer_instance

/-- fmbGo is the loop of find_matching_brace
(for pos in range(start_pos, len(text)): ...), recursing over the suffix of
the text starting at the current position pos, carrying the open_braces
counter.  Each opening brace increments the counter, each closing brace
decrements it and returns the current position when it reaches 0. -/
def fmbGo : List Char → Nat → Int → Int
  | [], _, _ => -1
  | c :: rest, pos, open_braces =>
    if c = '\x7b' then fmbGo rest (pos + 1) (open_braces + 1)
    else if c = '\x7d' then
      if open_braces - 1 = 0 then (pos : Int) else fmbGo rest (pos + 1) (open_braces - 1)
    else fmbGo rest (pos + 1) open_braces

/-- find_matching_brace, for the non-negative start positions at which the
Python function is actually called: scan text[start_pos:], starting with
open_braces = 0, and return the position of the closing brace at which the
counter returns to 0, or -1 if the end of the text is reached first. -/
def find_matching_brace (text : List Char) (start_pos : Nat) : Int :=
  fmbGo (text.drop start_pos) start_pos 0

/-- pyIndex implements Python sequence indexing text[i]: a negative index
counts from the end of the sequence; an index out of the range
[-len, len) raises IndexError (modelled as none). -/
def pyIndex (l : List Char) (i : Int) : Option Char :=
  let j : Int := if i < 0 then (l.length : Int) + i else i
  if 0 ≤ j ∧ j < (l.length : Int) then l.get? j.toNat else none

/-- fmbLoop is the loop of find_matching_brace with full Python indexing
semantics, for arbitrary integer positions: the fuel argument counts the
remaining iterations of range(pos, len(text)), and indexing errors are
propagated as Except.error. -/
def fmbLoop (text : List Char) : Nat → Int → Int → Except Unit Int
  | 0, _, _ => .ok (-1)
  | fuel + 1, pos, open_braces =>
    match pyIndex text pos with
    | none => .error ()
    | some c =>
      if c = '\x7b' then fmbLoop text fuel (pos + 1) (open_braces + 1)
      else if c = '\x7d' then
        if open_braces - 1 = 0 then .ok pos else fmbLoop text fuel (pos + 1) (open_braces - 1)
      else fmbLoop text fuel (pos + 1) open_braces

/-- find_matching_brace_py is find_matching_brace for an arbitrary integer
start_pos, with the Python indexing semantics (negative indices count from the
end; an access below -len(text) raises IndexError, modelled as
Except.error).  range(start_pos, len(text)) has
max(0, len(text) - start_pos) iterations. -/
def find_matching_brace_py (text : List Char) (start_pos : Int) : Except Unit Int :=
  fmbLoop text ((text.length : Int) - start_pos).toNat start_pos 0

/-- findFromGo is the scan underlying the Python method str.find(sub, start): walk the
suffixes of l, keeping the absolute position pos, and return the first
position whose suffix starts with pat, or -1. -/
def findFromGo (pat : List Char) : List Char → Nat → Int
  | [], pos => if pat.isPrefixOf ([] : List Char) then (pos : Int) else -1
  | c :: rest, pos =>
    if pat.isPrefixOf (c :: rest) then (pos : Int) else findFromGo pat rest (pos + 1)

/-- str_find text pat start models the Python call text.find(pat, start) for a
non-negative start offset: the lowest index at or after start where pat
occurs in text, or -1 if there is none. -/
def str_find (text pat : List Char) (start : Nat) : Int :=
  findFromGo pat (text.drop start) start

/-- isPySpace holds on the ASCII whitespace characters removed by the Python
str.strip() (the inputs at hand are ASCII text). -/
def isPySpace (c : Char) : Bool :=
  c = ' ' || c = '\t' || c = '\n' || c = '\r' || c = '\x0b' || c = '\x0c'

/-- pyStrip models the Python method str.strip(): remove leading and trailing
whitespace. -/
def pyStrip (l : List Char) : List Char :=
  ((l.dropWhile isPySpace).reverse.dropWhile isPySpace).reverse

/-- pySlice l a b models the Python slice l[a:b] for non-negative bounds. -/
def pySlice (l : List Char) (a b : Nat) : List Char :=
  (l.drop a).take (b - a)

/-- pat_pv is the first anchor searched by extract_code_sections. -/
def pat_pv : List Char := "object \"plonk_verifier\" \x7b".toList

/-- pat_code is the keyword-brace anchor searched after each object anchor. -/
def pat_code : List Char := "code \x7b".toList

/-- pat_rt is the second object anchor searched by extract_code_sections. -/
def pat_rt : List Char := "object \"Runtime\" \x7b".toList

/-- extract_offsets is the offset-computing chain of extract_code_sections:
it performs exactly the sequence of find calls and
find_matching_brace calls, failing (None, None) as soon as one returns -1,
and otherwise records (creation_code_start, creation_code_end,
runtime_start, runtime_code_start, runtime_code_end).  The two + 4 steps
translate the source incrementing each code start by len of the word
code. -/
def extract_offsets (yul_code : List Char) : Option (Nat × Nat × Nat × Nat × Nat) :=
  let creation_start := str_find yul_code pat_pv 0
  if creation_start = -1 then none else
  let creation_code_start := str_find yul_code pat_code creation_start.toNat
  if creation_code_start = -1 then none else
  let ccs := creation_code_start.toNat + 4
  let creation_code_end := find_matching_brace yul_code ccs
  if creation_code_end = -1 then none else
  let runtime_start := str_find yul_code pat_rt creation_code_end.toNat
  if runtime_start = -1 then none else
  let runtime_code_start := str_find yul_code pat_code runtime_start.toNat
  if runtime_code_start = -1 then none else
  let rcs := runtime_code_start.toNat + 4
  let runtime_code_end := find_matching_brace yul_code rcs
  if runtime_code_end = -1 then none else
  some (ccs, creation_code_end.toNat, runtime_start.toNat, rcs, runtime_code_end.toNat)

/-- extract_code_sections: on success, each section is the slice of the
input from just after the code keyword (creation_code_start /
runtime_code_start) up to the matching closing brace (exclusive), with
surrounding whitespace stripped; any failed lookup yields (None, None).
The Python function returns a pair each component of which is a string or
None, modelled as a pair of Options. -/
def extract_code_sections (yul_code : List Char) : Option (List Char) × Option (List Char) :=
  match extract_offsets yul_code with
  | none => (none, none)
  | some (ccs, cce, _, rcs, rce) =>
    (some (pyStrip (pySlice yul_code ccs cce)), some (pyStrip (pySlice yul_code rcs rce)))

/-- output_code1 is the first f-string built by split_yul_code: the
plonk_verifier object header, an indented code line, the creation code, a
closing brace on an indented line and a closing brace on its own line. -/
def output_code1 (creation_code : List Char) : List Char :=
  "object \"plonk_verifier\" \x7b\n    code \x7b".toList ++ creation_code ++ "\n    \x7d\n\x7d".toList

/-- output_code2 is the second f-string built by split_yul_code: the same
shape as output_code1 with the Runtime object header and the runtime
code. -/
def output_code2 (runtime_code : List Char) : List Char :=
  "object \"Runtime\" \x7b\n    code \x7b".toList ++ runtime_code ++ "\n    \x7d\n\x7d".toList

/-- split_yul_code, with its file effects made explicit: on success it
returns the exact contents written to the two output files (each output
code with the additional '\n' + closing brace appended by the write calls);
when either extracted section is None it performs no write and returns the
diagnostic message it prints. -/
def split_yul_code (yul_code : List Char) : Except String (List Char × List Char) :=
  match extract_code_sections yul_code with
  | (some creation_code, some runtime_code) =>
    .ok (output_code1 creation_code ++ "\n\x7d".toList,
         output_code2 runtime_code ++ "\n\x7d".toList)
  | _ => .error ("The Yul code structure does not match the expected pattern.")

/-- exC2 is the concrete scenario input of the specification. -/
def exC2 : List Char :=
  ("object \"plonk_verifier\" \x7b code \x7b MSTORE(0,1) \x7d \x7d " ++
   "object \"Runtime\" \x7b code \x7b RETURN(0,0) \x7d \x7d").toList

/-- exNested is the nested-brace scenario of the specification. -/
def exNested : List Char := "code \x7b if eq(x,1) \x7b sstore(0,1) \x7d \x7d".toList

/-- exUnclosed is a text whose opening brace is never closed. -/
def exUnclosed : List Char := "\x7babc".toList

/-- exNoAnchor is a text containing none of the anchors. -/
def exNoAnchor : List Char := "hello".toList

/-- exSec1 is the creation section the code extracts from exC2. -/
def exSec1 : List Char := "\x7b MSTORE(0,1)".toList

/-- exSec2 is the runtime section the code extracts from exC2. -/
def exSec2 : List Char := "\x7b RETURN(0,0)".toList

/-- exFile1 is the content split_yul_code writes to the first output file on
input exC2. -/
def exFile1 : List Char :=
  "object \"plonk_verifier\" \x7b\n    code \x7b\x7b MSTORE(0,1)\n    \x7d\n\x7d\n\x7d".toList

/-- exFile2 is the content split_yul_code writes to the second output file on
input exC2. -/
def exFile2 : List Char :=
  "object \"Runtime\" \x7b\n    code \x7b\x7b RETURN(0,0)\n    \x7d\n\x7d\n\x7d".toList

example : find_matching_brace exNested 5 = 34 := by decide
example : find_matching_brace exUnclosed 0 = -1 := by decide
example : extract_offsets exC2 = some (30, 45, 49, 72, 87) := by decide
example : extract_code_sections exC2 = (some exSec1, some exSec2) := by decide
example : find_matching_brace_py ([] : List Char) (-1) = .error () := rfl

lemma depthRun_nil : depthRun [] = 0 := rfl

lemma depthRun_cons (c : Char) (l : List Char) :
    depthRun (c :: l) = braceDelta c + depthRun l := by
  simp [depthRun]

lemma isMatchAt_nil (d : Int) (k : Nat) : ¬ isMatchAt [] d k := by
  intro h
  simp [isMatchAt] at h

lemma isMatchAt_zero (c : Char) (rest : List Char) (d : Int) :
    isMatchAt (c :: rest) d 0 ↔ (c = '\x7d' ∧ d + braceDelta c = 0) := by
  simp [isMatchAt, depthRun_cons, depthRun]

lemma isMatchAt_succ (c : Char) (rest : List Char) (d : Int) (k : Nat) :
    isMatchAt (c :: rest) d (k + 1) ↔ isMatchAt rest (d + braceDelta c) k := by
  unfold isMatchAt
  simp only [List.get?_cons_succ, List.take_succ_cons, depthRun_cons]
  constructor
  · rintro ⟨h1, h2⟩
    exact ⟨h1, by omega⟩
  · rintro ⟨h1, h2⟩
    exact ⟨h1, by omega⟩

lemma fmbGo_spec (l : List Char) : ∀ (pos : Nat) (d : Int),
    (fmbGo l pos d = -1 ∧ ∀ k, ¬ isMatchAt l d k) ∨
    (∃ k, fmbGo l pos d = ((pos + k : Nat) : Int) ∧ isMatchAt l d k ∧
      ∀ j, j < k → ¬ isMatchAt l d j) := by
  induction l with
  | nil =>
    intro pos d
    exact Or.inl ⟨rfl, fun k => isMatchAt_nil d k⟩
  | cons c rest ih =>
    intro pos d
    by_cases hc : c = '\x7b'
    · subst hc
      rw [show fmbGo ('\x7b' :: rest) pos d = fmbGo rest (pos + 1) (d + 1) from by
        simp [fmbGo]]
      have hdelta : braceDelta '\x7b' = 1 := rfl
      rcases ih (pos + 1) (d + 1) with ⟨h1, h2⟩ | ⟨k, h1, h2, h3⟩
      · refine Or.inl ⟨h1, fun k => ?_⟩
        match k with
        | 0 =>
          rw [isMatchAt_zero]
          rintro ⟨hcc, -⟩
          exact absurd hcc (by decide)
        | k + 1 =>
          rw [isMatchAt_succ, hdelta]
          exact h2 k
      · refine Or.inr ⟨k + 1, ?_, ?_, ?_⟩
        · rw [h1]
          congr 1
          omega
        · rw [isMatchAt_succ, hdelta]
          exact h2
        · intro j hj
          match j with
          | 0 =>
            rw [isMatchAt_zero]
            rintro ⟨hcc, -⟩
            exact absurd hcc (by decide)
          | j + 1 =>
            rw [isMatchAt_succ, hdelta]
            exact h3 j (by omega)
    · by_cases hc2 : c = '\x7d'
      · subst hc2
        have hdelta : braceDelta '\x7d' = -1 := rfl
        have hne : ('\x7d' : Char) ≠ '\x7b' := by decide
        by_cases hd : d - 1 = 0
        · rw [show fmbGo ('\x7d' :: rest) pos d = (pos : Int) from by
            simp [fmbGo, hne, hd]]
          refine Or.inr ⟨0, by simp, ?_, fun j hj => absurd hj (Nat.not_lt_zero j)⟩
          rw [isMatchAt_zero, hdelta]
          exact ⟨rfl, by omega⟩
        · rw [show fmbGo ('\x7d' :: rest) pos d = fmbGo rest (pos + 1) (d - 1) from by
            simp [fmbGo, hne, hd]]
          have heq : d + braceDelta '\x7d' = d - 1 := by
            rw [hdelta]
            ring
          rcases ih (pos + 1) (d - 1) with ⟨h1, h2⟩ | ⟨k, h1, h2, h3⟩
          · refine Or.inl ⟨h1, fun k => ?_⟩
            match k with
            | 0 =>
              rw [isMatchAt_zero, hdelta]
              rintro ⟨-, hzero⟩
              exact hd (by omega)
            | k + 1 =>
              rw [isMatchAt_succ, heq]
              exact h2 k
          · refine Or.inr ⟨k + 1, ?_, ?_, ?_⟩
            · rw [h1]
              congr 1
              omega
            · rw [isMatchAt_succ, heq]
              exact h2
            · intro j hj
              match j with
              | 0 =>
                rw [isMatchAt_zero, hdelta]
                rintro ⟨-, hzero⟩
                exact hd (by omega)
              | j + 1 =>
                rw [isMatchAt_succ, heq]
                exact h3 j (by omega)
      · have hdelta : braceDelta c = 0 := by simp [braceDelta, hc, hc2]
        rw [show fmbGo (c :: rest) pos d = fmbGo rest (pos + 1) d from by
          simp [fmbGo, hc, hc2]]
        have heq : d + braceDelta c = d := by
          rw [hdelta]
          ring
        rcases ih (pos + 1) d with ⟨h1, h2⟩ | ⟨k, h1, h2, h3⟩
        · refine Or.inl ⟨h1, fun k => ?_⟩
          match k with
          | 0 =>
            rw [isMatchAt_zero]
            rintro ⟨hcc, -⟩
            exact hc2 hcc
          | k + 1 =>
            rw [isMatchAt_succ, heq]
            exact h2 k
        · refine Or.inr ⟨k + 1, ?_, ?_, ?_⟩
          · rw [h1]
            congr 1
            omega
          · rw [isMatchAt_succ, heq]
            exact h2
          · intro j hj
            match j with
            | 0 =>
              rw [isMatchAt_zero]
              rintro ⟨hcc, -⟩
              exact hc2 hcc
            | j + 1 =>
              rw [isMatchAt_succ, heq]
              exact h3 j (by omega)

lemma findFromGo_spec (pat : List Char) : ∀ (l : List Char) (pos : Nat),
    (findFromGo pat l pos = -1 ∧ ∀ k, ¬ (pat.isPrefixOf (l.drop k) = true)) ∨
    (∃ k, findFromGo pat l pos = ((pos + k : Nat) : Int) ∧
      pat.isPrefixOf (l.drop k) = true ∧
      ∀ j, j < k → ¬ (pat.isPrefixOf (l.drop j) = true)) := by
  intro l
  induction l with
  | nil =>
    intro pos
    by_cases h : pat.isPrefixOf ([] : List Char) = true
    · refine Or.inr ⟨0, ?_, by simpa using h, fun j hj => absurd hj (Nat.not_lt_zero j)⟩
      simp [findFromGo, h]
    · refine Or.inl ⟨by simp [findFromGo, h], fun k => by simpa using h⟩
  | cons c rest ih =>
    intro pos
    by_cases h : pat.isPrefixOf (c :: rest) = true
    · refine Or.inr ⟨0, ?_, by simpa using h, fun j hj => absurd hj (Nat.not_lt_zero j)⟩
      simp [findFromGo, h]
    · rw [show findFromGo pat (c :: rest) pos = findFromGo pat rest (pos + 1) from by
        simp [findFromGo, h]]
      rcases ih (pos + 1) with ⟨h1, h2⟩ | ⟨k, h1, h2, h3⟩
      · refine Or.inl ⟨h1, fun k => ?_⟩
        match k with
        | 0 => simpa using h
        | k + 1 => simpa [List.drop_succ_cons] using h2 k
      · refine Or.inr ⟨k + 1, ?_, ?_, ?_⟩
        · rw [h1]
          congr 1
          omega
        · simpa [List.drop_succ_cons] using h2
        · intro j hj
          match j with
          | 0 => simpa using h
          | j + 1 => simpa [List.drop_succ_cons] using h3 j (by omega)

lemma find_matching_brace_spec (text : List Char) (start : Nat) :
    (find_matching_brace text start = -1 ∧ ∀ k, ¬ isMatchAt (text.drop start) 0 k) ∨
    (∃ k, find_matching_brace text start = ((start + k : Nat) : Int) ∧
      isMatchAt (text.drop start) 0 k ∧ ∀ j, j < k → ¬ isMatchAt (text.drop start) 0 j) :=
  fmbGo_spec (text.drop start) start 0

lemma str_find_cases (text pat : List Char) (start : Nat) :
    str_find text pat start = -1 ∨
    ∃ n : Nat, str_find text pat start = (n : Int) ∧ start ≤ n ∧
      pat.isPrefixOf (text.drop n) = true := by
  rcases findFromGo_spec pat (text.drop start) start with ⟨h1, -⟩ | ⟨k, h1, h2, -⟩
  · exact Or.inl h1
  · refine Or.inr ⟨start + k, h1, by omega, ?_⟩
    rwa [List.drop_drop] at h2

lemma find_matching_brace_cases (text : List Char) (start : Nat) :
    find_matching_brace text start = -1 ∨
    ∃ n : Nat, find_matching_brace text start = (n : Int) ∧ start ≤ n := by
  rcases fmbGo_spec (text.drop start) start 0 with ⟨h1, -⟩ | ⟨k, h1, -, -⟩
  · exact Or.inl h1
  · exact Or.inr ⟨start + k, h1, by omega⟩

lemma natCast_ne_negOne (n : Nat) : ¬ ((n : Int) = -1) := by omega

lemma extract_offsets_eq_some (s : List Char) (cs q e r rq re : Nat)
    (h1 : str_find s pat_pv 0 = (cs : Int))
    (h2 : str_find s pat_code cs = (q : Int))
    (h3 : find_matching_brace s (q + 4) = (e : Int))
    (h4 : str_find s pat_rt e = (r : Int))
    (h5 : str_find s pat_code r = (rq : Int))
    (h6 : find_matching_brace s (rq + 4) = (re : Int)) :
    extract_offsets s = some (q + 4, e, r, rq + 4, re) := by
  simp [extract_offsets, h1, h2, h3, h4, h5, h6, natCast_ne_negOne]

lemma extract_offsets_fail1 (s : List Char)
    (h1 : str_find s pat_pv 0 = -1) :
    extract_offsets s = none := by
  simp [extract_offsets, h1]

lemma extract_offsets_fail2 (s : List Char) (cs : Nat)
    (h1 : str_find s pat_pv 0 = (cs : Int))
    (h2 : str_find s pat_code cs = -1) :
    extract_offsets s = none := by
  simp [extract_offsets, h1, h2, natCast_ne_negOne]

lemma extract_offsets_fail3 (s : List Char) (cs q : Nat)
    (h1 : str_find s pat_pv 0 = (cs : Int))
    (h2 : str_find s pat_code cs = (q : Int))
    (h3 : find_matching_brace s (q + 4) = -1) :
    extract_offsets s = none := by
  simp [extract_offsets, h1, h2, h3, natCast_ne_negOne]

lemma extract_offsets_fail4 (s : List Char) (cs q e : Nat)
    (h1 : str_find s pat_pv 0 = (cs : Int))
    (h2 : str_find s pat_code cs = (q : Int))
    (h3 : find_matching_brace s (q + 4) = (e : Int))
    (h4 : str_find s pat_rt e = -1) :
    extract_offsets s = none := by
  simp [extract_offsets, h1, h2, h3, h4, natCast_ne_negOne]

lemma extract_offsets_fail5 (s : List Char) (cs q e r : Nat)
    (h1 : str_find s pat_pv 0 = (cs : Int))
    (h2 : str_find s pat_code cs = (q : Int))
    (h3 : find_matching_brace s (q + 4) = (e : Int))
    (h4 : str_find s pat_rt e = (r : Int))
    (h5 : str_find s pat_code r = -1) :
    extract_offsets s = none := by
  simp [extract_offsets, h1, h2, h3, h4, h5, natCast_ne_negOne]

lemma extract_offsets_fail6 (s : List Char) (cs q e r rq : Nat)
    (h1 : str_find s pat_pv 0 = (cs : Int))
    (h2 : str_find s pat_code cs = (q : Int))
    (h3 : find_matching_brace s (q + 4) = (e : Int))
    (h4 : str_find s pat_rt e = (r : Int))
    (h5 : str_find s pat_code r = (rq : Int))
    (h6 : find_matching_brace s (rq + 4) = -1) :
    extract_offsets s = none := by
  simp [extract_offsets, h1, h2, h3, h4, h5, h6, natCast_ne_negOne]

lemma extract_offsets_some_spec (s : List Char) (ccs cce rs rcs rce : Nat)
    (h : extract_offsets s = some (ccs, cce, rs, rcs, rce)) :
    ∃ cs q rq : Nat,
      str_find s pat_pv 0 = (cs : Int) ∧
      str_find s pat_code cs = (q : Int) ∧
      ccs = q + 4 ∧
      find_matching_brace s (q + 4) = (cce : Int) ∧
      str_find s pat_rt cce = (rs : Int) ∧
      str_find s pat_code rs = (rq : Int) ∧
      rcs = rq + 4 ∧
      find_matching_brace s (rq + 4) = (rce : Int) := by
  rcases str_find_cases s pat_pv 0 with h1 | ⟨cs, h1, -, -⟩
  · rw [extract_offsets_fail1 s h1] at h
    exact absurd h (by simp)
  rcases str_find_cases s pat_code cs with h2 | ⟨q, h2, -, -⟩
  · rw [extract_offsets_fail2 s cs h1 h2] at h
    exact absurd h (by simp)
  rcases find_matching_brace_cases s (q + 4) with h3 | ⟨e, h3, -⟩
  · rw [extract_offsets_fail3 s cs q h1 h2 h3] at h
    exact absurd h (by simp)
  rcases str_find_cases s pat_rt e with h4 | ⟨r, h4, -, -⟩
  · rw [extract_offsets_fail4 s cs q e h1 h2 h3 h4] at h
    exact absurd h (by simp)
  rcases str_find_cases s pat_code r with h5 | ⟨rq, h5, -, -⟩
  · rw [extract_offsets_fail5 s cs q e r h1 h2 h3 h4 h5] at h
    exact absurd h (by simp)
  rcases find_matching_brace_cases s (rq + 4) with h6 | ⟨re, h6, -⟩
  · rw [extract_offsets_fail6 s cs q e r rq h1 h2 h3 h4 h5 h6] at h
    exact absurd h (by simp)
  rw [extract_offsets_eq_some s cs q e r rq re h1 h2 h3 h4 h5 h6] at h
  simp only [Option.some.injEq, Prod.mk.injEq] at h
  obtain ⟨e1, e2, e3, e4, e5⟩ := h
  subst e1
  subst e2
  subst e3
  subst e4
  subst e5
  exact ⟨cs, q, rq, h1, h2, rfl, h3, h4, h5, rfl, h6⟩

lemma str_find_eq_occurrence (text pat : List Char) (start n : Nat)
    (h : str_find text pat start = (n : Int)) :
    start ≤ n ∧ pat.isPrefixOf (text.drop n) = true := by
  rcases str_find_cases text pat start with h1 | ⟨m, h1, h2, h3⟩
  · rw [h] at h1
    exact absurd h1 (by omega)
  · rw [h] at h1
    have hnm : n = m := by exact_mod_cast h1
    subst hnm
    exact ⟨h2, h3⟩

lemma depthRun_append (l₁ l₂ : List Char) :
    depthRun (l₁ ++ l₂) = depthRun l₁ + depthRun l₂ := by
  simp [depthRun]

lemma depthRun_eq_counts (l : List Char) :
    depthRun l = (l.count '\x7b' : Int) - (l.count '\x7d' : Int) := by
  induction l with
  | nil => rfl
  | cons c rest ih =>
    rw [depthRun_cons, ih, List.count_cons, List.count_cons]
    by_cases hc : c = '\x7b'
    · subst hc
      have hne : ('\x7d' : Char) ≠ '\x7b' := by decide
      simp [braceDelta, hne]
      ring
    · by_cases hc2 : c = '\x7d'
      · subst hc2
        have hne : ('\x7b' : Char) ≠ '\x7d' := by decide
        simp [braceDelta, hne]
        ring
      · simp [braceDelta, hc, hc2, Ne.symm hc, Ne.symm hc2]

lemma count_dropWhile_of_not (p : Char → Bool) (l : List Char) (c : Char)
    (hc : p c = false) : (l.dropWhile p).count c = l.count c := by
  conv_rhs => rw [← List.takeWhile_append_dropWhile p l]
  rw [List.count_append]
  have hz : (l.takeWhile p).count c = 0 := by
    rw [List.count_eq_zero]
    intro hmem
    have hp := List.mem_takeWhile_imp hmem
    rw [hc] at hp
    exact absurd hp (by simp)
  omega

lemma count_pyStrip (l : List Char) (c : Char) (hc : isPySpace c = false) :
    (pyStrip l).count c = l.count c := by
  unfold pyStrip
  rw [List.count_reverse, count_dropWhile_of_not _ _ _ hc, List.count_reverse,
    count_dropWhile_of_not _ _ _ hc]

lemma isPrefixOf_exists (pat l : List Char) (h : pat.isPrefixOf l = true) :
    ∃ t : List Char, l = pat ++ t := by
  induction pat generalizing l with
  | nil => exact ⟨l, rfl⟩
  | cons c cs ih =>
    cases l with
    | nil => simp [List.isPrefixOf] at h
    | cons x xs =>
      simp only [List.isPrefixOf, Bool.and_eq_true, beq_iff_eq] at h
      obtain ⟨hcx, hrest⟩ := h
      subst hcx
      obtain ⟨t, ht⟩ := ih xs hrest
      exact ⟨t, by rw [ht]; rfl⟩

lemma head_rstrip (x : Char) (hx : isPySpace x = false) (r : List Char) :
    (((x :: r).reverse.dropWhile isPySpace).reverse).head? = some x := by
  have key : ∀ u : List Char, ∃ v : List Char, (u ++ [x]).dropWhile isPySpace = v ++ [x] := by
    intro u
    induction u with
    | nil => exact ⟨[], by simp [List.dropWhile_cons, hx]⟩
    | cons c u ih =>
      by_cases hcu : isPySpace c
      · obtain ⟨v, hv⟩ := ih
        exact ⟨v, by simp [List.dropWhile_cons, hcu, hv]⟩
      · exact ⟨c :: u, by simp [List.dropWhile_cons, hcu]⟩
  obtain ⟨v, hv⟩ := key r.reverse
  rw [show (x :: r).reverse = r.reverse ++ [x] from by simp]
  rw [hv]
  simp

lemma pyStrip_head (t : List Char) :
    (pyStrip (' ' :: '\x7b' :: t)).head? = some '\x7b' := by
  unfold pyStrip
  have h1 : isPySpace ' ' = true := rfl
  have h2 : isPySpace '\x7b' = false := rfl
  rw [show (' ' :: '\x7b' :: t).dropWhile isPySpace = '\x7b' :: t from by
    simp [List.dropWhile_cons, h1, h2]]
  exact head_rstrip '\x7b' h2 t

lemma section_slice_shape (s : List Char) (q e : Nat)
    (hq : pat_code.isPrefixOf (s.drop q) = true)
    (he : find_matching_brace s (q + 4) = (e : Int)) :
    ∃ t : List Char, pySlice s (q + 4) e = ' ' :: '\x7b' :: t ∧
      depthRun (pySlice s (q + 4) e) = 1 := by
  obtain ⟨t0, ht0⟩ := isPrefixOf_exists pat_code (s.drop q) hq
  have hdd : (s.drop q).drop 4 = s.drop (q + 4) := List.drop_drop 4 q s
  have hdrop : s.drop (q + 4) = ' ' :: '\x7b' :: t0 := by
    rw [← hdd, ht0]
    rfl
  rcases find_matching_brace_spec s (q + 4) with ⟨h1, -⟩ | ⟨k, h1, h2, -⟩
  · rw [he] at h1
    exact absurd h1 (by omega)
  rw [he] at h1
  obtain ⟨hget, hdepth⟩ := h2
  rcases k with _ | _ | k
  · rw [hdrop] at hget
    simp at hget
  · rw [hdrop] at hget
    simp at hget
  have hek : e = q + 4 + (k + 2) := by exact_mod_cast h1
  have hslice : pySlice s (q + 4) e = ' ' :: '\x7b' :: t0.take k := by
    unfold pySlice
    have hsub : e - (q + 4) = k + 2 := by omega
    rw [hsub, hdrop]
    simp [List.take_succ_cons]
  have hget' : t0.get? k = some '\x7d' := by
    rw [hdrop] at hget
    simpa using hget
  have hdepth' : depthRun (t0.take (k + 1)) = -1 := by
    rw [hdrop] at hdepth
    have htk3 : (' ' :: '\x7b' :: t0).take (k + 2 + 1) = ' ' :: '\x7b' :: t0.take (k + 1) := by
      simp [List.take_succ_cons]
    rw [htk3, depthRun_cons, depthRun_cons] at hdepth
    have hsp : braceDelta ' ' = 0 := rfl
    have hob : braceDelta '\x7b' = 1 := rfl
    rw [hsp, hob] at hdepth
    omega
  have htk : t0.take (k + 1) = t0.take k ++ ['\x7d'] := by
    rw [List.take_succ]
    congr 1
    rw [← List.get?_eq_getElem?, hget']
    rfl
  have hdk : depthRun (t0.take k) = 0 := by
    rw [htk, depthRun_append] at hdepth'
    have hone : depthRun ['\x7d'] = -1 := rfl
    rw [hone] at hdepth'
    omega
  refine ⟨t0.take k, hslice, ?_⟩
  rw [hslice, depthRun_cons, depthRun_cons]
  have hsp : braceDelta ' ' = 0 := rfl
  have hob : braceDelta '\x7b' = 1 := rfl
  rw [hsp, hob, hdk]
  ring

lemma section_props (s : List Char) (q e : Nat)
    (hq : pat_code.isPrefixOf (s.drop q) = true)
    (he : find_matching_brace s (q + 4) = (e : Int)) :
    (pyStrip (pySlice s (q + 4) e)).head? = some '\x7b' ∧
    (pyStrip (pySlice s (q + 4) e)).count '\x7b' =
      (pyStrip (pySlice s (q + 4) e)).count '\x7d' + 1 ∧
    pyStrip (pySlice s (q + 4) e) ≠ [] := by
  obtain ⟨t, hshape, hdepth⟩ := section_slice_shape s q e hq he
  have hcount : (pySlice s (q + 4) e).count '\x7b' = (pySlice s (q + 4) e).count '\x7d' + 1 := by
    rw [depthRun_eq_counts] at hdepth
    omega
  have hob : isPySpace '\x7b' = false := rfl
  have hcb : isPySpace '\x7d' = false := rfl
  have hcount' : (pyStrip (pySlice s (q + 4) e)).count '\x7b' =
      (pyStrip (pySlice s (q + 4) e)).count '\x7d' + 1 := by
    rw [count_pyStrip _ _ hob, count_pyStrip _ _ hcb]
    exact hcount
  refine ⟨?_, hcount', ?_⟩
  · rw [hshape]
    exact pyStrip_head t
  · intro hnil
    rw [hnil] at hcount'
    simp at hcount'

lemma extract_sections_eq (s : List Char) (ccs cce rs rcs rce : Nat)
    (h : extract_offsets s = some (ccs, cce, rs, rcs, rce)) :
    extract_code_sections s =
      (some (pyStrip (pySlice s ccs cce)), some (pyStrip (pySlice s rcs rce))) := by
  unfold extract_code_sections
  rw [h]

lemma pyIndex_nonneg (l : List Char) (i : Int) (h0 : 0 ≤ i) (hlt : i < (l.length : Int)) :
    pyIndex l i = l.get? i.toNat := by
  have hni : ¬ i < 0 := by omega
  simp [pyIndex, hni, h0, hlt]

lemma fmbLoop_eq_fmbGo (text : List Char) :
    ∀ (fuel : Nat) (pos : Int) (d : Int), 0 ≤ pos →
      fuel = ((text.length : Int) - pos).toNat →
      fmbLoop text fuel pos d = .ok (fmbGo (text.drop pos.toNat) pos.toNat d) := by
  intro fuel
  induction fuel with
  | zero =>
    intro pos d h0 hf
    have hge : (text.length : Int) ≤ pos := by omega
    have hdrop : text.drop pos.toNat = [] := by
      apply List.drop_eq_nil_of_le
      omega
    rw [hdrop]
    rfl
  | succ fuel ih =>
    intro pos d h0 hf
    have hlt : pos < (text.length : Int) := by omega
    have hlen : pos.toNat < text.length := by omega
    have hdropc : text.drop pos.toNat = text[pos.toNat] :: text.drop (pos.toNat + 1) :=
      List.drop_eq_getElem_cons hlen
    have hidx : pyIndex text pos = some text[pos.toNat] := by
      rw [pyIndex_nonneg text pos h0 hlt, List.get?_eq_getElem?]
      exact List.getElem?_eq_getElem hlen
    have htn : (pos + 1).toNat = pos.toNat + 1 := by omega
    have hih : ∀ d' : Int, fmbLoop text fuel (pos + 1) d' =
        .ok (fmbGo (text.drop (pos.toNat + 1)) (pos.toNat + 1) d') := by
      intro d'
      have hh := ih (pos + 1) d' (by omega) (by omega)
      rwa [htn] at hh
    rw [hdropc]
    by_cases hcb : text[pos.toNat] = '\x7b'
    · rw [show fmbLoop text (fuel + 1) pos d = fmbLoop text fuel (pos + 1) (d + 1) from by
        simp [fmbLoop, hidx, hcb]]
      rw [show fmbGo (text[pos.toNat] :: text.drop (pos.toNat + 1)) pos.toNat d =
          fmbGo (text.drop (pos.toNat + 1)) (pos.toNat + 1) (d + 1) from by
        simp [fmbGo, hcb]]
      exact hih (d + 1)
    · by_cases hcb2 : text[pos.toNat] = '\x7d'
      · by_cases hd : d - 1 = 0
        · rw [show fmbLoop text (fuel + 1) pos d = .ok pos from by
            simp [fmbLoop, hidx, hcb, hcb2, hd]]
          rw [show fmbGo (text[pos.toNat] :: text.drop (pos.toNat + 1)) pos.toNat d =
              ((pos.toNat : Nat) : Int) from by simp [fmbGo, hcb, hcb2, hd]]
          congr 1
          omega
        · rw [show fmbLoop text (fuel + 1) pos d = fmbLoop text fuel (pos + 1) (d - 1) from by
            simp [fmbLoop, hidx, hcb, hcb2, hd]]
          rw [show fmbGo (text[pos.toNat] :: text.drop (pos.toNat + 1)) pos.toNat d =
              fmbGo (text.drop (pos.toNat + 1)) (pos.toNat + 1) (d - 1) from by
            simp [fmbGo, hcb, hcb2, hd]]
          exact hih (d - 1)
      · rw [show fmbLoop text (fuel + 1) pos d = fmbLoop text fuel (pos + 1) d from by
          simp [fmbLoop, hidx, hcb, hcb2]]
        rw [show fmbGo (text[pos.toNat] :: text.drop (pos.toNat + 1)) pos.toNat d =
            fmbGo (text.drop (pos.toNat + 1)) (pos.toNat + 1) d from by
          simp [fmbGo, hcb, hcb2]]
        exact hih d

lemma find_matching_brace_py_nonneg (text : List Char) (start : Int) (h : 0 ≤ start) :
    find_matching_brace_py text start = .ok (find_matching_brace text start.toNat) := by
  unfold find_matching_brace_py find_matching_brace
  exact fmbLoop_eq_fmbGo text _ start 0 h rfl

lemma find_matching_brace_bound (text : List Char) (start : Nat) :
    find_matching_brace text start = -1 ∨
    ∃ n : Nat, find_matching_brace text start = (n : Int) ∧ start ≤ n ∧ n < text.length := by
  rcases fmbGo_spec (text.drop start) start 0 with ⟨h1, -⟩ | ⟨k, h1, h2, -⟩
  · exact Or.inl h1
  · refine Or.inr ⟨start + k, h1, by omega, ?_⟩
    obtain ⟨hget, -⟩ := h2
    have hk : k < (text.drop start).length := by
      rw [List.get?_eq_getElem?] at hget
      exact (List.getElem?_eq_some.mp hget).1
    rw [List.length_drop] at hk
    omega

lemma extract_sections_of_none (s : List Char) (h : extract_offsets s = none) :
    extract_code_sections s = (none, none) := by
  unfold extract_code_sections
  rw [h]

lemma file_counts (a : List Char) (hc : a.count '\x7b' = a.count '\x7d' + 1) :
    (output_code1 a ++ "\n\x7d".toList).count '\x7b' =
      (output_code1 a ++ "\n\x7d".toList).count '\x7d' ∧
    (output_code2 a ++ "\n\x7d".toList).count '\x7b' =
      (output_code2 a ++ "\n\x7d".toList).count '\x7d' := by
  have p1b : ("object \"plonk_verifier\" \x7b\n    code \x7b".toList).count '\x7b' = 2 := by
    decide
  have p1c : ("object \"plonk_verifier\" \x7b\n    code \x7b".toList).count '\x7d' = 0 := by
    decide
  have p2b : ("object \"Runtime\" \x7b\n    code \x7b".toList).count '\x7b' = 2 := by decide
  have p2c : ("object \"Runtime\" \x7b\n    code \x7b".toList).count '\x7d' = 0 := by decide
  have sb : ("\n    \x7d\n\x7d".toList).count '\x7b' = 0 := by decide
  have sc : ("\n    \x7d\n\x7d".toList).count '\x7d' = 2 := by decide
  have tb : ("\n\x7d".toList).count '\x7b' = 0 := by decide
  have tc : ("\n\x7d".toList).count '\x7d' = 1 := by decide
  constructor
  · simp only [output_code1, List.count_append, p1b, p1c, sb, sc, tb, tc]
    omega
  · simp only [output_code2, List.count_append, p2b, p2c, sb, sc, tb, tc]
    omega

/-- C1: for every text and every offset of an opening brace in it,
find_matching_brace returns offset p exactly when p is start + k for the
first position k at which a running depth counter — initialized to 0 at the
opening brace, incremented on each opening brace, decremented on each
closing brace — sits on a closing brace and has returned to exactly 0; in
particular braces nested inside the block are never returned. -/
theorem C1_fmb_first_depth_zero (text : List Char) (start p : Nat)
    (_hopen : text.get? start = some '\x7b') :
    find_matching_brace text start = (p : Int) ↔
      ∃ k, p = start + k ∧ isMatchAt (text.drop start) 0 k ∧
        ∀ j, j < k → ¬ isMatchAt (text.drop start) 0 j := by
  rcases find_matching_brace_spec text start with ⟨h1, h2⟩ | ⟨k0, h1, h2, h3⟩
  · constructor
    · intro hp
      rw [hp] at h1
      exact absurd h1 (by omega)
    · rintro ⟨k, -, hk, -⟩
      exact absurd hk (h2 k)
  · constructor
    · intro hp
      rw [hp] at h1
      have hpe : p = start + k0 := by exact_mod_cast h1
      exact ⟨k0, hpe, h2, h3⟩
    · rintro ⟨k, hpk, hk, hkmin⟩
      subst hpk
      have hkk : k = k0 := by
        by_contra hne
        rcases Nat.lt_or_ge k k0 with hlt | hge
        · exact h3 k hlt hk
        · have hgt : k0 < k := by omega
          exact hkmin k0 hgt h2
      rw [hkk]
      exact h1

/-- Witness for C1 at the nested-brace scenario of the specification: the opening
brace at offset 5 of exNested is matched to the outer closing brace at
offset 34, not to the inner closing brace at offset 32. -/
theorem C1_witness :
    ∃ k, 34 = 5 + k ∧ isMatchAt (exNested.drop 5) 0 k ∧
      ∀ j, j < k → ¬ isMatchAt (exNested.drop 5) 0 j :=
  (C1_fmb_first_depth_zero exNested 5 34 (by decide)).mp (by decide)

/-- C2 counterexample: on the concrete input of the specification the function
does not return the substrings strictly between the braces (MSTORE(0,1) and
RETURN(0,0)); the extracted sections keep the opening brace. -/
theorem C2_counterexample :
    extract_code_sections exC2 ≠
      (some ("MSTORE(0,1)".toList), some ("RETURN(0,0)".toList)) := by
  decide

/-- C2 amended: on every input on which extraction succeeds, each extracted
section is the whitespace-stripped slice from just past the code keyword
(the space before the opening brace) to the matching closing brace
(exclusive); the opening brace is therefore included, and each section
starts with it. -/
theorem C2_sections_include_open_brace (s : List Char) (ccs cce rs rcs rce : Nat)
    (h : extract_offsets s = some (ccs, cce, rs, rcs, rce)) :
    extract_code_sections s =
      (some (pyStrip (pySlice s ccs cce)), some (pyStrip (pySlice s rcs rce))) ∧
    (pyStrip (pySlice s ccs cce)).head? = some '\x7b' ∧
    (pyStrip (pySlice s rcs rce)).head? = some '\x7b' := by
  obtain ⟨cs, q, rq, h1, h2, hccs, h3, h4, h5, hrcs, h6⟩ :=
    extract_offsets_some_spec s ccs cce rs rcs rce h
  subst hccs
  subst hrcs
  have hq : pat_code.isPrefixOf (s.drop q) = true :=
    (str_find_eq_occurrence s pat_code cs q h2).2
  have hrq : pat_code.isPrefixOf (s.drop rq) = true :=
    (str_find_eq_occurrence s pat_code rs rq h5).2
  exact ⟨extract_sections_eq s _ _ _ _ _ h, (section_props s q cce hq h3).1,
    (section_props s rq rce hrq h6).1⟩

/-- Witness for C2 amended at the concrete scenario input exC2, whose
offsets are (30, 45, 49, 72, 87). -/
theorem C2_witness :
    extract_code_sections exC2 =
      (some (pyStrip (pySlice exC2 30 45)), some (pyStrip (pySlice exC2 72 87))) ∧
    (pyStrip (pySlice exC2 30 45)).head? = some '\x7b' ∧
    (pyStrip (pySlice exC2 72 87)).head? = some '\x7b' :=
  C2_sections_include_open_brace exC2 30 45 49 72 87 (by decide)

/-- C3: failure of any of the four anchor searches or of either brace match
makes extract_code_sections return (None, None) as a whole, and the result
is never a pair with exactly one string component. -/
theorem C3_extract_fails_whole (s : List Char) :
    (extract_code_sections s = (none, none) ∨
      ∃ a b, extract_code_sections s = (some a, some b)) ∧
    (str_find s pat_pv 0 = -1 → extract_code_sections s = (none, none)) ∧
    (∀ cs : Nat, str_find s pat_pv 0 = (cs : Int) →
      str_find s pat_code cs = -1 → extract_code_sections s = (none, none)) ∧
    (∀ cs q : Nat, str_find s pat_pv 0 = (cs : Int) →
      str_find s pat_code cs = (q : Int) →
      find_matching_brace s (q + 4) = -1 → extract_code_sections s = (none, none)) ∧
    (∀ cs q e : Nat, str_find s pat_pv 0 = (cs : Int) →
      str_find s pat_code cs = (q : Int) →
      find_matching_brace s (q + 4) = (e : Int) →
      str_find s pat_rt e = -1 → extract_code_sections s = (none, none)) ∧
    (∀ cs q e r : Nat, str_find s pat_pv 0 = (cs : Int) →
      str_find s pat_code cs = (q : Int) →
      find_matching_brace s (q + 4) = (e : Int) →
      str_find s pat_rt e = (r : Int) →
      str_find s pat_code r = -1 → extract_code_sections s = (none, none)) ∧
    (∀ cs q e r rq : Nat, str_find s pat_pv 0 = (cs : Int) →
      str_find s pat_code cs = (q : Int) →
      find_matching_brace s (q + 4) = (e : Int) →
      str_find s pat_rt e = (r : Int) →
      str_find s pat_code r = (rq : Int) →
      find_matching_brace s (rq + 4) = -1 → extract_code_sections s = (none, none)) := by
  refine ⟨?_, ?_, ?_, ?_, ?_, ?_, ?_⟩
  · rcases hopt : extract_offsets s with - | ⟨ccs, cce, rs, rcs, rce⟩
    · exact Or.inl (extract_sections_of_none s hopt)
    · exact Or.inr ⟨_, _, extract_sections_eq s _ _ _ _ _ hopt⟩
  · intro h1
    exact extract_sections_of_none s (extract_offsets_fail1 s h1)
  · intro cs h1 h2
    exact extract_sections_of_none s (extract_offsets_fail2 s cs h1 h2)
  · intro cs q h1 h2 h3
    exact extract_sections_of_none s (extract_offsets_fail3 s cs q h1 h2 h3)
  · intro cs q e h1 h2 h3 h4
    exact extract_sections_of_none s (extract_offsets_fail4 s cs q e h1 h2 h3 h4)
  · intro cs q e r h1 h2 h3 h4 h5
    exact extract_sections_of_none s (extract_offsets_fail5 s cs q e r h1 h2 h3 h4 h5)
  · intro cs q e r rq h1 h2 h3 h4 h5 h6
    exact extract_sections_of_none s (extract_offsets_fail6 s cs q e r rq h1 h2 h3 h4 h5 h6)

/-- Witness for C3: on a text containing no anchor the whole extraction
fails with (None, None). -/
theorem C3_witness : extract_code_sections exNoAnchor = (none, none) :=
  (C3_extract_fails_whole exNoAnchor).2.1 (by decide)

/-- C4: when extraction fails, split_yul_code produces only the diagnostic
message it prints and performs no file write: the ok payload carrying the
two output file contents is absent, so neither output file is created or
modified. -/
theorem C4_mismatch_writes_nothing (s : List Char)
    (h : extract_code_sections s = (none, none)) :
    split_yul_code s =
      .error ("The Yul code structure does not match the expected pattern.") := by
  unfold split_yul_code
  rw [h]

/-- Witness for C4 on a structurally mismatched input. -/
theorem C4_witness :
    split_yul_code exNoAnchor =
      .error ("The Yul code structure does not match the expected pattern.") :=
  C4_mismatch_writes_nothing exNoAnchor (by decide)

/-- C5: if the running brace depth never returns to 0 at any scanned
position before the end of the text, find_matching_brace returns the
sentinel -1 (the embedded function is pure, so it mutates no outside
state by construction). -/
theorem C5_no_match_returns_neg_one (text : List Char) (start : Nat)
    (h : ∀ k, k < (text.drop start).length →
      depthRun ((text.drop start).take (k + 1)) ≠ 0) :
    find_matching_brace text start = -1 := by
  rcases find_matching_brace_spec text start with ⟨h1, -⟩ | ⟨k, -, h2, -⟩
  · exact h1
  · obtain ⟨hget, hdepth⟩ := h2
    have hk : k < (text.drop start).length := by
      rw [List.get?_eq_getElem?] at hget
      exact (List.getElem?_eq_some.mp hget).1
    have hne := h k hk
    omega

/-- Witness for C5: an opening brace that is never closed yields -1. -/
theorem C5_witness : find_matching_brace exUnclosed 0 = -1 :=
  C5_no_match_returns_neg_one exUnclosed 0 (by decide)

/-- C6: the search for the runtime anchor starts only at the creation
closing brace of the creation section, so on success runtime_start is at or
after creation_code_end, it is an occurrence of the anchor, and it never
equals an offset strictly inside the first section. -/
theorem C6_runtime_anchor_after_creation (s : List Char) (ccs cce rs rcs rce : Nat)
    (h : extract_offsets s = some (ccs, cce, rs, rcs, rce)) :
    cce ≤ rs ∧ pat_rt.isPrefixOf (s.drop rs) = true ∧ ∀ q, q < cce → rs ≠ q := by
  obtain ⟨cs, q, rq, h1, h2, hccs, h3, h4, h5, hrcs, h6⟩ :=
    extract_offsets_some_spec s ccs cce rs rcs rce h
  obtain ⟨hle, hocc⟩ := str_find_eq_occurrence s pat_rt cce rs h4
  exact ⟨hle, hocc, fun q0 hq0 => by omega⟩

/-- Witness for C6 at exC2: the runtime anchor is found at 49, at or after
the closing brace of the creation section at 45. -/
theorem C6_witness :
    45 ≤ 49 ∧ pat_rt.isPrefixOf (exC2.drop 49) = true ∧ ∀ q, q < 45 → 49 ≠ q :=
  C6_runtime_anchor_after_creation exC2 30 45 49 72 87 (by decide)

/-- C7 counterexample: on the well-formed concrete input the extracted
creation section contains one opening brace and no closing brace, so the
two brace counts of a returned section are not equal. -/
theorem C7_counterexample :
    extract_code_sections exC2 = (some exSec1, some exSec2) ∧
    exSec1.count '\x7b' = 1 ∧ exSec1.count '\x7d' = 0 ∧
    ¬ exSec1.count '\x7b' = exSec1.count '\x7d' :=
  ⟨by decide, by decide, by decide, by decide⟩

/-- C7 amended: on every input on which extraction succeeds, both returned
sections are non-empty, and each contains exactly one more opening brace
than closing braces (rather than equal counts). -/
theorem C7_sections_nonempty_unbalanced (s : List Char) (ccs cce rs rcs rce : Nat)
    (h : extract_offsets s = some (ccs, cce, rs, rcs, rce)) :
    ∃ a b, extract_code_sections s = (some a, some b) ∧
      a ≠ [] ∧ b ≠ [] ∧
      a.count '\x7b' = a.count '\x7d' + 1 ∧
      b.count '\x7b' = b.count '\x7d' + 1 := by
  obtain ⟨cs, q, rq, h1, h2, hccs, h3, h4, h5, hrcs, h6⟩ :=
    extract_offsets_some_spec s ccs cce rs rcs rce h
  subst hccs
  subst hrcs
  have hq : pat_code.isPrefixOf (s.drop q) = true :=
    (str_find_eq_occurrence s pat_code cs q h2).2
  have hrq : pat_code.isPrefixOf (s.drop rq) = true :=
    (str_find_eq_occurrence s pat_code rs rq h5).2
  obtain ⟨-, hcnt1, hne1⟩ := section_props s q cce hq h3
  obtain ⟨-, hcnt2, hne2⟩ := section_props s rq rce hrq h6
  exact ⟨_, _, extract_sections_eq s _ _ _ _ _ h, hne1, hne2, hcnt1, hcnt2⟩

/-- Witness for C7 amended at exC2. -/
theorem C7_witness :
    ∃ a b, extract_code_sections exC2 = (some a, some b) ∧
      a ≠ [] ∧ b ≠ [] ∧
      a.count '\x7b' = a.count '\x7d' + 1 ∧
      b.count '\x7b' = b.count '\x7d' + 1 :=
  C7_sections_nonempty_unbalanced exC2 30 45 49 72 87 (by decide)

/-- C8 counterexample: on the concrete input both output file contents are
exactly brace balanced (3 opening and 3 closing braces each), not one
closing brace in excess. -/
theorem C8_counterexample :
    split_yul_code exC2 = .ok (exFile1, exFile2) ∧
    exFile1.count '\x7b' = 3 ∧ exFile1.count '\x7d' = 3 ∧
    exFile2.count '\x7b' = 3 ∧ exFile2.count '\x7d' = 3 :=
  ⟨rfl, by decide, by decide, by decide, by decide⟩

/-- C8 amended: on every input on which extraction succeeds, each output
file receives its section wrapped in the object/code container syntax with
a trailing closing brace appended, and the result is exactly brace
balanced: the appended brace compensates the opening brace carried inside
each extracted section, so the counts of opening and closing braces in each
file are equal. -/
theorem C8_outputs_balanced (s : List Char) (ccs cce rs rcs rce : Nat)
    (h : extract_offsets s = some (ccs, cce, rs, rcs, rce)) :
    ∃ f1 f2, split_yul_code s = .ok (f1, f2) ∧
      f1 = output_code1 (pyStrip (pySlice s ccs cce)) ++ "\n\x7d".toList ∧
      f2 = output_code2 (pyStrip (pySlice s rcs rce)) ++ "\n\x7d".toList ∧
      f1.count '\x7b' = f1.count '\x7d' ∧
      f2.count '\x7b' = f2.count '\x7d' := by
  have hsec := extract_sections_eq s ccs cce rs rcs rce h
  have hsplit : split_yul_code s =
      .ok (output_code1 (pyStrip (pySlice s ccs cce)) ++ "\n\x7d".toList,
        output_code2 (pyStrip (pySlice s rcs rce)) ++ "\n\x7d".toList) := by
    unfold split_yul_code
    rw [hsec]
  obtain ⟨cs, q, rq, h1, h2, hccs, h3, h4, h5, hrcs, h6⟩ :=
    extract_offsets_some_spec s ccs cce rs rcs rce h
  subst hccs
  subst hrcs
  have hq : pat_code.isPrefixOf (s.drop q) = true :=
    (str_find_eq_occurrence s pat_code cs q h2).2
  have hrq : pat_code.isPrefixOf (s.drop rq) = true :=
    (str_find_eq_occurrence s pat_code rs rq h5).2
  obtain ⟨-, hcnt1, -⟩ := section_props s q cce hq h3
  obtain ⟨-, hcnt2, -⟩ := section_props s rq rce hrq h6
  exact ⟨_, _, hsplit, rfl, rfl, (file_counts _ hcnt1).1, (file_counts _ hcnt2).2⟩

/-- Witness for C8 amended at exC2. -/
theorem C8_witness :
    ∃ f1 f2, split_yul_code exC2 = .ok (f1, f2) ∧
      f1 = output_code1 (pyStrip (pySlice exC2 30 45)) ++ "\n\x7d".toList ∧
      f2 = output_code2 (pyStrip (pySlice exC2 72 87)) ++ "\n\x7d".toList ∧
      f1.count '\x7b' = f1.count '\x7d' ∧
      f2.count '\x7b' = f2.count '\x7d' :=
  C8_outputs_balanced exC2 30 45 49 72 87 (by decide)

/-- C9: the extractor and the splitter are deterministic functions of the
input text: two runs on equal inputs return equal section pairs and
byte-identical output file contents (the embedding is pure, so this is
determinism by construction). -/
theorem C9_deterministic (s t : List Char) (h : s = t) :
    extract_code_sections s = extract_code_sections t ∧
    split_yul_code s = split_yul_code t := by
  subst h
  exact ⟨rfl, rfl⟩

/-- Witness for C9 at exC2. -/
theorem C9_witness :
    extract_code_sections exC2 = extract_code_sections exC2 ∧
    split_yul_code exC2 = split_yul_code exC2 :=
  C9_deterministic exC2 exC2 rfl

/-- C10 counterexample: find_matching_brace on the empty text with
start_pos = -1 hits the Python IndexError (range(-1, 0) yields position -1,
and indexing the empty string at -1 is out of bounds), rather than
returning -1 or an in-range index. -/
theorem C10_counterexample :
    find_matching_brace_py ([] : List Char) (-1) = .error () := rfl

/-- C10 amended: for every text and every non-negative start_pos (as at
every call site), find_matching_brace terminates without an indexing error
and returns -1 or an index in the range from start_pos to the text length
(exclusive); and extract_code_sections on an arbitrary string always
returns (None, None) or a pair of two strings, never an error. -/
theorem C10_safety (text : List Char) (start : Int) (s : List Char) (h : 0 ≤ start) :
    (∃ r : Int, find_matching_brace_py text start = .ok r ∧
      (r = -1 ∨ (start ≤ r ∧ r < (text.length : Int)))) ∧
    (extract_code_sections s = (none, none) ∨
      ∃ a b, extract_code_sections s = (some a, some b)) := by
  constructor
  · refine ⟨find_matching_brace text start.toNat,
      find_matching_brace_py_nonneg text start h, ?_⟩
    rcases find_matching_brace_bound text start.toNat with h1 | ⟨n, h1, h2, h3⟩
    · exact Or.inl h1
    · right
      rw [h1]
      constructor
      · omega
      · omega
  · rcases hopt : extract_offsets s with - | ⟨ccs, cce, rs, rcs, rce⟩
    · exact Or.inl (extract_sections_of_none s hopt)
    · exact Or.inr ⟨_, _, extract_sections_eq s _ _ _ _ _ hopt⟩

/-- Witness for C10 amended. -/
theorem C10_witness :
    (∃ r : Int, find_matching_brace_py exNested 0 = .ok r ∧
      (r = -1 ∨ (0 ≤ r ∧ r < (exNested.length : Int)))) ∧
    (extract_code_sections exC2 = (none, none) ∨
      ∃ a b, extract_code_sections exC2 = (some a, some b)) :=
  C10_safety exNested 0 exC2 (by omega)

end SplitYul
